import Mathlib

/-!
Verification development for `sphinxcontrib_trio/__init__.py`.

The file shallowly embeds the algorithmic core of the extension:

* the callable sniffer `sniff_options` (walking the `__wrapped__` /
  `__func__` chain and accumulating option tags),
* the option-merge function `update_with_sniffed_options`,
* the signature renderer of `ExtendedCallableMixin`
  (`_get_signature_prefix` and the suffix annotations added by
  `handle_signature`),
* the rendering-time field filter `filter_trio_fields`,
* the docstring metadata splitter `separate_metadata`, including a direct
  implementation of the docutils `field_marker` regular expression used by
  `FIELD_LIST_ITEM_RE`.

Python sets of tag strings are modelled as duplicate-free `List String`
values in insertion order; Python dicts are modelled as association lists
in insertion order.
-/

namespace SphinxcontribTrio

/-- Introspectable attributes of one Python object, as read by
`sniff_options`: `__isabstractmethod__`, `isinstance(obj, classmethod)`,
`isinstance(obj, staticmethod)`, `inspect.iscoroutinefunction`,
`inspect.isgeneratorfunction`, `isasyncgenfunction`,
`obj.__code__ in CM_CODES`, `__returns_contextmanager__`,
`obj.__code__ in ACM_CODES`, `__returns_acontextmanager__`. -/
structure Attrs where
  isabstractmethod : Bool
  isClassmethod : Bool
  isStaticmethod : Bool
  iscoroutinefunction : Bool
  isgeneratorfunction : Bool
  isasyncgenfunction : Bool
  codeInCmCodes : Bool
  returnsContextmanager : Bool
  codeInAcmCodes : Bool
  returnsAcontextmanager : Bool
deriving DecidableEq, Repr

/-- A Python object as seen by the chain walk at the end of
`sniff_options`: either it has a `__wrapped__` attribute (which is
followed, whether or not `__func__` also exists), or it has no
`__wrapped__` but a `__func__` attribute (which is followed), or it has
neither and the walk stops.  The inductive structure makes the chain
finite and acyclic, which is the host language's own contract. -/
inductive PyObj : Type where
  | leaf (a : Attrs)
  | wrapped (a : Attrs) (o : PyObj)
  | funcOnly (a : Attrs) (o : PyObj)
deriving DecidableEq, Repr

/-- Attributes of the outermost object of a chain. -/
def PyObj.attrs : PyObj → Attrs
  | .leaf a => a
  | .wrapped a _ => a
  | .funcOnly a _ => a

/-- The module-level constant `EXCLUSIVE_OPTIONS`. -/
def EXCLUSIVE_OPTIONS : List String :=
  ["async", "for", "async-for", "with", "async-with"]

/-- Membership in `EXCLUSIVE_OPTIONS` (the test `options & EXCLUSIVE_OPTIONS`
is about these tags). -/
def isExcl (t : String) : Bool := t ∈ EXCLUSIVE_OPTIONS

/-- Python `set.add`, on the insertion-order list model of a set. -/
def addTag (opts : List String) (t : String) : List String :=
  if t ∈ opts then opts else opts ++ [t]

/-- The loop guard `options & EXCLUSIVE_OPTIONS` is non-empty. -/
def hasExcl (opts : List String) : Prop := ∃ t ∈ opts, isExcl t = true

instance (opts : List String) : Decidable (hasExcl opts) := by
  unfold hasExcl; infer_instance

/-- Unconditional part of the loop body of `sniff_options`: the
`abstractmethod` / `classmethod` / `staticmethod` additions. -/
def sniffNonExcl (a : Attrs) (opts : List String) : List String :=
  let o1 := if a.isabstractmethod then addTag opts "abstractmethod" else opts
  let o2 := if a.isClassmethod then addTag o1 "classmethod" else o1
  if a.isStaticmethod then addTag o2 "staticmethod" else o2

/-- Body of the block of `sniff_options` guarded by
`if not (options & EXCLUSIVE_OPTIONS)`. -/
def sniffExclBlock (a : Attrs) (opts : List String) : List String :=
  let o4 := if a.iscoroutinefunction then addTag opts "async"
    else if a.isgeneratorfunction then addTag opts "for" else opts
  let o5 := if a.isasyncgenfunction then addTag o4 "async-for" else o4
  let o6 := if a.codeInCmCodes then addTag o5 "with" else o5
  let o7 := if a.returnsContextmanager then addTag o6 "with" else o6
  let o8 := if a.codeInAcmCodes then addTag o7 "async-with" else o7
  if a.returnsAcontextmanager then addTag o8 "async-with" else o8

/-- One iteration of the `while True` loop body of `sniff_options`
applied to the current object's attributes. -/
def layerStep (a : Attrs) (opts : List String) : List String :=
  let o3 := sniffNonExcl a opts
  if hasExcl o3 then o3 else sniffExclBlock a o3

/-- The `while True` loop of `sniff_options`, processing the current
object and then advancing along `__wrapped__` (preferred) or `__func__`. -/
def sniffFrom : PyObj → List String → List String
  | .leaf a, opts => layerStep a opts
  | .wrapped a o, opts => sniffFrom o (layerStep a opts)
  | .funcOnly a o, opts => sniffFrom o (layerStep a opts)

/-- The function `sniff_options(obj)`. -/
def sniff_options (obj : PyObj) : List String := sniffFrom obj []

/-- The sequence of objects visited by the chain walk, outermost first. -/
def layers : PyObj → List Attrs
  | .leaf a => [a]
  | .wrapped a o => a :: layers o
  | .funcOnly a o => a :: layers o

/-- Folding the per-layer loop body over an explicit list of layers. -/
def foldLayers (l : List Attrs) (opts : List String) : List String :=
  l.foldl (fun o a => layerStep a o) opts

/-- Exclusive-group tags detected at a single layer when no exclusive tag
has been seen yet (the guarded block of the loop body). -/
def exclAt (a : Attrs) : List String :=
  (if a.iscoroutinefunction then ["async"]
   else if a.isgeneratorfunction then ["for"] else [])
  ++ (if a.isasyncgenfunction then ["async-for"] else [])
  ++ (if a.codeInCmCodes || a.returnsContextmanager then ["with"] else [])
  ++ (if a.codeInAcmCodes || a.returnsAcontextmanager then ["async-with"] else [])

/-- Exclusive-group tags of the first layer that detects any, outermost
first; empty when no layer detects one. -/
def exclFirst (l : List Attrs) : List String :=
  match l.find? (fun a => !(exclAt a).isEmpty) with
  | some a => exclAt a
  | none => []

/-- Whether a single layer detects a given non-exclusive tag. -/
def nonExclDetect (a : Attrs) (t : String) : Bool :=
  if t = "abstractmethod" then a.isabstractmethod
  else if t = "classmethod" then a.isClassmethod
  else if t = "staticmethod" then a.isStaticmethod
  else false

theorem mem_addTag {opts : List String} {t t' : String} :
    t' ∈ addTag opts t ↔ t' ∈ opts ∨ t' = t := by
  unfold addTag
  split <;> simp_all

theorem nonExclDetect_not_excl {a : Attrs} {t : String}
    (h : nonExclDetect a t = true) : isExcl t = false := by
  unfold nonExclDetect at h
  split_ifs at h with h1 h2 h3 <;> simp_all [isExcl, EXCLUSIVE_OPTIONS]

theorem mem_sniffNonExcl {a : Attrs} {opts : List String} {t : String} :
    t ∈ sniffNonExcl a opts ↔ t ∈ opts ∨ nonExclDetect a t = true := by
  obtain ⟨b1, b2, b3, b4, b5, b6, b7, b8, b9, b10⟩ := a
  unfold sniffNonExcl nonExclDetect
  cases b1 <;> cases b2 <;> cases b3 <;>
    by_cases h1 : t = "abstractmethod" <;> by_cases h2 : t = "classmethod" <;>
    by_cases h3 : t = "staticmethod" <;>
    (try simp_all [mem_addTag])

set_option maxHeartbeats 1600000 in
theorem mem_sniffExclBlock {a : Attrs} {opts : List String} {t : String} :
    t ∈ sniffExclBlock a opts ↔ t ∈ opts ∨ t ∈ exclAt a := by
  obtain ⟨b1, b2, b3, b4, b5, b6, b7, b8, b9, b10⟩ := a
  unfold sniffExclBlock exclAt
  cases b4 <;> cases b5 <;> cases b6 <;> cases b7 <;> cases b8 <;>
    cases b9 <;> cases b10 <;> (try simp [mem_addTag]) <;> (try tauto)

theorem exclAt_subset_exclusive {a : Attrs} :
    exclAt a ⊆ EXCLUSIVE_OPTIONS := by
  unfold exclAt EXCLUSIVE_OPTIONS
  split_ifs <;> simp [List.subset_def]

theorem mem_exclAt_excl {a : Attrs} {t : String} (h : t ∈ exclAt a) :
    isExcl t = true := by
  have := exclAt_subset_exclusive h
  simp [isExcl, this]

theorem hasExcl_sniffNonExcl {a : Attrs} {opts : List String} :
    hasExcl (sniffNonExcl a opts) ↔ hasExcl opts := by
  unfold hasExcl
  constructor
  · rintro ⟨t, ht, hx⟩
    rcases mem_sniffNonExcl.1 ht with h | h
    · exact ⟨t, h, hx⟩
    · exact absurd hx (by simp [nonExclDetect_not_excl h])
  · rintro ⟨t, ht, hx⟩
    exact ⟨t, mem_sniffNonExcl.2 (Or.inl ht), hx⟩

theorem layerStep_eq (a : Attrs) (opts : List String) :
    layerStep a opts =
      if hasExcl (sniffNonExcl a opts) then sniffNonExcl a opts
      else sniffExclBlock a (sniffNonExcl a opts) := rfl

theorem mem_layerStep_closed {a : Attrs} {opts : List String} {t : String}
    (hg : hasExcl opts) (ht : isExcl t = true) :
    t ∈ layerStep a opts ↔ t ∈ opts := by
  rw [layerStep_eq, if_pos (hasExcl_sniffNonExcl.2 hg), mem_sniffNonExcl]
  constructor
  · rintro (h | h)
    · exact h
    · exact absurd ht (by simp [nonExclDetect_not_excl h])
  · exact Or.inl

theorem mem_layerStep_open {a : Attrs} {opts : List String} {t : String}
    (hg : ¬ hasExcl opts) (ht : isExcl t = true) :
    t ∈ layerStep a opts ↔ t ∈ exclAt a := by
  rw [layerStep_eq, if_neg (by rw [hasExcl_sniffNonExcl]; exact hg),
    mem_sniffExclBlock, mem_sniffNonExcl]
  constructor
  · rintro ((h | h) | h)
    · exact absurd (show hasExcl opts from ⟨t, h, ht⟩) hg
    · exact absurd ht (by simp [nonExclDetect_not_excl h])
    · exact h
  · exact fun h => Or.inr h

theorem mem_layerStep_nonexcl {a : Attrs} {opts : List String} {t : String}
    (ht : isExcl t = false) :
    t ∈ layerStep a opts ↔ t ∈ opts ∨ nonExclDetect a t = true := by
  rw [layerStep_eq]
  by_cases hg : hasExcl (sniffNonExcl a opts)
  · rw [if_pos hg]
    exact mem_sniffNonExcl
  · rw [if_neg hg, mem_sniffExclBlock, mem_sniffNonExcl]
    constructor
    · rintro ((h | h) | h)
      · exact Or.inl h
      · exact Or.inr h
      · exact absurd ht (by simp [mem_exclAt_excl h])
    · rintro (h | h)
      · exact Or.inl (Or.inl h)
      · exact Or.inl (Or.inr h)

theorem hasExcl_layerStep {a : Attrs} {opts : List String} :
    hasExcl (layerStep a opts) ↔ hasExcl opts ∨ exclAt a ≠ [] := by
  rw [layerStep_eq]
  by_cases hg : hasExcl (sniffNonExcl a opts)
  · rw [if_pos hg]
    rw [hasExcl_sniffNonExcl] at hg
    simp [hg, hasExcl_sniffNonExcl]
  · rw [if_neg hg]
    rw [hasExcl_sniffNonExcl] at hg
    unfold hasExcl
    constructor
    · rintro ⟨t, ht, hx⟩
      rcases mem_sniffExclBlock.1 ht with h | h
      · rcases mem_sniffNonExcl.1 h with h' | h'
        · exact Or.inl ⟨t, h', hx⟩
        · exact absurd hx (by simp [nonExclDetect_not_excl h'])
      · exact Or.inr (by rintro hnil; rw [hnil] at h; exact absurd h (List.not_mem_nil t))
    · rintro (h | h)
      · exact absurd h hg
      · rcases List.exists_mem_of_ne_nil _ h with ⟨t, ht⟩
        exact ⟨t, mem_sniffExclBlock.2 (Or.inr ht), mem_exclAt_excl ht⟩

theorem sniffFrom_eq_foldLayers (o : PyObj) (opts : List String) :
    sniffFrom o opts = foldLayers (layers o) opts := by
  induction o generalizing opts with
  | leaf a => simp [sniffFrom, layers, foldLayers]
  | wrapped a o ih => simpa [sniffFrom, layers, foldLayers] using ih _
  | funcOnly a o ih => simpa [sniffFrom, layers, foldLayers] using ih _

theorem mem_foldLayers_nonexcl {t : String} (ht : isExcl t = false)
    (l : List Attrs) (opts : List String) :
    t ∈ foldLayers l opts ↔ t ∈ opts ∨ ∃ a ∈ l, nonExclDetect a t = true := by
  induction l generalizing opts with
  | nil => simp [foldLayers]
  | cons a rest ih =>
    show t ∈ foldLayers rest (layerStep a opts) ↔ _
    rw [ih, mem_layerStep_nonexcl ht]
    simp
    tauto

theorem mem_foldLayers_closed {t : String} (ht : isExcl t = true)
    (l : List Attrs) (opts : List String) (hg : hasExcl opts) :
    t ∈ foldLayers l opts ↔ t ∈ opts := by
  induction l generalizing opts with
  | nil => simp [foldLayers]
  | cons a rest ih =>
    show t ∈ foldLayers rest (layerStep a opts) ↔ _
    rw [ih _ (hasExcl_layerStep.2 (Or.inl hg)), mem_layerStep_closed hg ht]

theorem mem_foldLayers_open {t : String} (ht : isExcl t = true)
    (l : List Attrs) (opts : List String) (hg : ¬ hasExcl opts) :
    t ∈ foldLayers l opts ↔ t ∈ exclFirst l := by
  induction l generalizing opts with
  | nil =>
    simp only [foldLayers, List.foldl_nil, exclFirst, List.find?_nil]
    constructor
    · intro h; exact absurd (show hasExcl opts from ⟨t, h, ht⟩) hg
    · intro h; exact absurd h (List.not_mem_nil t)
  | cons a rest ih =>
    show t ∈ foldLayers rest (layerStep a opts) ↔ t ∈ exclFirst (a :: rest)
    by_cases hnil : exclAt a = []
    · have hg' : ¬ hasExcl (layerStep a opts) := by
        rw [hasExcl_layerStep]; tauto
      rw [ih _ hg']
      unfold exclFirst
      rw [List.find?_cons_of_neg _ (by simp [hnil])]
    · have hg' : hasExcl (layerStep a opts) := hasExcl_layerStep.2 (Or.inr hnil)
      rw [mem_foldLayers_closed ht _ _ hg', mem_layerStep_open hg ht]
      unfold exclFirst
      rw [List.find?_cons_of_pos _ (by simp [hnil])]

/-- A single Python object that is a coroutine function
(`inspect.iscoroutinefunction` is true) and additionally carries the
marker attribute `__returns_contextmanager__ = True`; it has no
`__wrapped__` and no `__func__`. -/
def c1FailObj : PyObj :=
  .leaf ⟨false, false, false, true, false, false, false, true, false, false⟩

/-- C1: the claim states that `sniff_options` returns at most one tag from
the exclusive group for every callable.  The code violates this: the guard
`if not (options & EXCLUSIVE_OPTIONS)` is evaluated once per layer, so a
single layer can add several exclusive tags.  On `c1FailObj` the sniffer
returns both `async` and `with`, contradicting the claim and the code's
own comment above `EXCLUSIVE_OPTIONS` ("Our sniffer never reports more
than one item from this set"). -/
theorem claim_C1_two_exclusive_tags :
    sniff_options c1FailObj = ["async", "with"] ∧
    ((sniff_options c1FailObj).countP isExcl = 2 ∧
      (sniff_options c1FailObj).Nodup) := by
  decide

/-- A three-layer demonstration chain for the C2 witness: an abstract
generator function wrapping (via `__wrapped__`) a classmethod-and-coroutine
layer whose `__func__` is a staticmethod layer with a context-manager code
object. -/
def c2DemoObj : PyObj :=
  .wrapped ⟨true, false, false, false, true, false, false, false, false, false⟩
    (.funcOnly ⟨false, true, false, true, false, false, false, false, false, false⟩
      (.leaf ⟨false, false, true, false, false, false, true, false, false, true⟩))

/-- C2: walking a finite wrapped-callable chain, `sniff_options` is
exactly the fold of the per-layer loop body over the list of layers
(so it visits each of the N chain objects once and terminates); a
non-exclusive tag is in the result iff some layer detects it (union over
all layers); and an exclusive-group tag is in the result iff it is
detected at the first (outermost) layer that detects any exclusive-group
tag, later layers being skipped. -/
theorem claim_C2_chain_walk (o : PyObj) :
    sniff_options o = foldLayers (layers o) [] ∧
    (∀ t, isExcl t = false →
      (t ∈ sniff_options o ↔ ∃ a ∈ layers o, nonExclDetect a t = true)) ∧
    (∀ t, isExcl t = true →
      (t ∈ sniff_options o ↔ t ∈ exclFirst (layers o))) := by
  refine ⟨sniffFrom_eq_foldLayers o [], ?_, ?_⟩
  · intro t ht
    rw [sniff_options, sniffFrom_eq_foldLayers, mem_foldLayers_nonexcl ht]
    simp
  · intro t ht
    rw [sniff_options, sniffFrom_eq_foldLayers,
      mem_foldLayers_open ht _ _ (by unfold hasExcl; simp)]

/-- Witness for C2: the theorem applied to the concrete chain `c2DemoObj`,
with both tag-side hypotheses discharged by evaluation. -/
theorem claim_C2_chain_walk_witness :
    ("abstractmethod" ∈ sniff_options c2DemoObj ↔
      ∃ a ∈ layers c2DemoObj, nonExclDetect a "abstractmethod" = true) ∧
    ("for" ∈ sniff_options c2DemoObj ↔ "for" ∈ exclFirst (layers c2DemoObj)) :=
  ⟨(claim_C2_chain_walk c2DemoObj).2.1 "abstractmethod" (by decide),
   (claim_C2_chain_walk c2DemoObj).2.2 "for" (by decide)⟩

/-! ## Option dictionaries and `update_with_sniffed_options` -/

/-- An option dictionary (`self.options` / `option_dict`) in insertion
order: a key maps to `none` for a flag option given without a value and to
`some v` for a valued option. -/
abbrev OptionDict := List (String × Option String)

/-- Python `key in dict`. -/
def containsKey (d : OptionDict) (k : String) : Bool :=
  d.any (fun p => p.1 == k)

/-- Python `dict[key]` lookup, `none` when the key is missing. -/
def lookupKey (d : OptionDict) (k : String) : Option (Option String) :=
  match d with
  | [] => none
  | (k', v) :: rest => if k' == k then some v else lookupKey rest k

/-- Python `dict.setdefault(key, value)`: keep the dictionary unchanged
when the key is present, otherwise append the new binding. -/
def setdefault (d : OptionDict) (k : String) (v : Option String) : OptionDict :=
  if containsKey d k then d else d ++ [(k, v)]

/-- The loop `for attr in sniffed: option_dict.setdefault(attr, None)` of
`update_with_sniffed_options`, over an explicit iteration order of the
sniffed tag set. -/
def mergeSniffed (d : OptionDict) (sniffed : List String) : OptionDict :=
  sniffed.foldl (fun d t => setdefault d t none) d

/-- The function `update_with_sniffed_options(obj, option_dict)`,
returning the updated dictionary. -/
def update_with_sniffed_options (obj : PyObj) (d : OptionDict) : OptionDict :=
  if containsKey d "no-auto-options" then d
  else mergeSniffed d (sniff_options obj)

theorem containsKey_cons {d : OptionDict} {k pk : String} {pv : Option String} :
    containsKey ((pk, pv) :: d) k = ((pk == k) || containsKey d k) := by
  simp [containsKey]

theorem containsKey_append_single {d : OptionDict} {k k' : String}
    {v : Option String} :
    containsKey (d ++ [(k', v)]) k = (containsKey d k || k' == k) := by
  simp [containsKey, List.any_append]

theorem lookupKey_append_single {d : OptionDict} {k k' : String}
    {v : Option String} (h : containsKey d k = false) :
    lookupKey (d ++ [(k', v)]) k = if k' == k then some v else none := by
  induction d with
  | nil => simp [lookupKey]
  | cons p rest ih =>
    obtain ⟨pk, pv⟩ := p
    rw [containsKey_cons, Bool.or_eq_false_iff] at h
    simp only [List.cons_append, lookupKey]
    rw [if_neg (by simp [h.1])]
    exact ih h.2

theorem lookupKey_present_append {d : OptionDict} {k k' : String}
    {v : Option String} (h : containsKey d k = true) :
    lookupKey (d ++ [(k', v)]) k = lookupKey d k := by
  induction d with
  | nil => simp [containsKey] at h
  | cons p rest ih =>
    obtain ⟨pk, pv⟩ := p
    rw [containsKey_cons, Bool.or_eq_true_iff] at h
    by_cases hk : (pk == k) = true
    · simp [lookupKey, hk]
    · simp only [List.cons_append, lookupKey, if_neg hk]
      rcases h with h | h
      · exact absurd h hk
      · exact ih h

theorem lookupKey_setdefault_present {d : OptionDict} {k k' : String}
    {v : Option String} (h : containsKey d k = true) :
    lookupKey (setdefault d k' v) k = lookupKey d k := by
  unfold setdefault
  split
  · rfl
  · exact lookupKey_present_append h

theorem containsKey_setdefault {d : OptionDict} {k k' : String}
    {v : Option String} :
    containsKey (setdefault d k' v) k = (containsKey d k || k' == k) := by
  unfold setdefault
  by_cases hp : containsKey d k' = true
  · rw [if_pos (by simp [hp])]
    by_cases hk : (k' == k) = true
    · have hkk : k' = k := by rwa [beq_iff_eq] at hk
      subst hkk
      simp [hp]
    · simp [Bool.eq_false_iff.2 hk]
  · rw [if_neg (by simp [hp])]
    exact containsKey_append_single

theorem lookupKey_setdefault_absent {d : OptionDict} {k : String}
    {v : Option String} (h : containsKey d k = false) :
    lookupKey (setdefault d k v) k = some v := by
  unfold setdefault
  rw [if_neg (by simp [h])]
  rw [lookupKey_append_single h]
  simp

theorem mergeSniffed_preserves {d : OptionDict} {k : String}
    (sniffed : List String) (h : containsKey d k = true) :
    lookupKey (mergeSniffed d sniffed) k = lookupKey d k ∧
      containsKey (mergeSniffed d sniffed) k = true := by
  induction sniffed generalizing d with
  | nil => exact ⟨rfl, h⟩
  | cons s rest ih =>
    have hc : containsKey (setdefault d s none) k = true := by
      rw [containsKey_setdefault, h, Bool.true_or]
    obtain ⟨ih1, ih2⟩ := ih hc
    refine ⟨?_, ih2⟩
    rw [show mergeSniffed d (s :: rest) = mergeSniffed (setdefault d s none) rest from rfl,
      ih1, lookupKey_setdefault_present h]

theorem mergeSniffed_new {d : OptionDict} {t : String}
    (sniffed : List String) (ht : t ∈ sniffed)
    (h : containsKey d t = false) :
    lookupKey (mergeSniffed d sniffed) t = some none := by
  induction sniffed generalizing d with
  | nil => exact absurd ht (List.not_mem_nil t)
  | cons s rest ih =>
    show lookupKey (mergeSniffed (setdefault d s none) rest) t = some none
    by_cases hts : s = t
    · subst hts
      have hc : containsKey (setdefault d s none) s = true := by
        rw [containsKey_setdefault]; simp
      rw [(mergeSniffed_preserves rest hc).1, lookupKey_setdefault_absent h]
    · rcases List.mem_cons.1 ht with h' | h'
      · exact absurd h'.symm hts
      · refine ih h' ?_
        rw [containsKey_setdefault, h]
        simp [hts]

theorem mergeSniffed_keys {d : OptionDict} {k : String}
    (sniffed : List String)
    (h : containsKey (mergeSniffed d sniffed) k = true) :
    containsKey d k = true ∨ k ∈ sniffed := by
  induction sniffed generalizing d with
  | nil => exact Or.inl h
  | cons s rest ih =>
    rcases @ih (setdefault d s none) h with h' | h'
    · rw [containsKey_setdefault] at h'
      rcases Bool.or_eq_true_iff.1 h' with h'' | h''
      · exact Or.inl h''
      · rw [beq_iff_eq] at h''
        exact Or.inr (by simp [h''])
    · exact Or.inr (List.mem_cons_of_mem s h')

/-- C4: merging sniffed tags into an explicit option map uses
`setdefault` semantics: when the auto-sniff flag is absent,
`update_with_sniffed_options` folds `setdefault attr None` over the
sniffed tags (first conjunct); for any iteration order of any sniffed tag
set, a key already present keeps its explicit value unchanged (second
conjunct), a sniffed tag absent from the map is inserted with the unset
value `None` (third conjunct), and no other key appears (fourth
conjunct). -/
theorem claim_C4_setdefault_merge (d : OptionDict) (sniffed : List String) :
    (∀ obj, containsKey d "no-auto-options" = false →
      update_with_sniffed_options obj d = mergeSniffed d (sniff_options obj)) ∧
    (∀ k, containsKey d k = true →
      lookupKey (mergeSniffed d sniffed) k = lookupKey d k) ∧
    (∀ t, t ∈ sniffed → containsKey d t = false →
      lookupKey (mergeSniffed d sniffed) t = some none) ∧
    (∀ k, containsKey (mergeSniffed d sniffed) k = true →
      containsKey d k = true ∨ k ∈ sniffed) := by
  refine ⟨?_, ?_, ?_, ?_⟩
  · intro obj hno
    unfold update_with_sniffed_options
    rw [if_neg (by simp [hno])]
  · intro k hk
    exact (mergeSniffed_preserves sniffed hk).1
  · intro t ht hd
    exact mergeSniffed_new sniffed ht hd
  · intro k hk
    exact mergeSniffed_keys sniffed hk

/-- Witness for C4: an explicit `:for: loop_var` entry survives a merge
with the sniffed tags of a generator object unchanged, while the freshly
sniffed `abstractmethod` tag is inserted with no value. -/
theorem claim_C4_setdefault_merge_witness :
    lookupKey (mergeSniffed [("for", some "loop_var")] ["abstractmethod", "for"])
        "for" = some (some "loop_var") ∧
    lookupKey (mergeSniffed [("for", some "loop_var")] ["abstractmethod", "for"])
        "abstractmethod" = some none :=
  ⟨(claim_C4_setdefault_merge [("for", some "loop_var")]
      ["abstractmethod", "for"]).2.1 "for" (by decide),
   (claim_C4_setdefault_merge [("for", some "loop_var")]
      ["abstractmethod", "for"]).2.2.1 "abstractmethod" (by decide) (by decide)⟩

/-- C9: when the `no-auto-options` flag is present in the option map,
`update_with_sniffed_options` returns the map unchanged for every
documented object. -/
theorem claim_C9_no_auto_options (obj : PyObj) (d : OptionDict)
    (h : containsKey d "no-auto-options" = true) :
    update_with_sniffed_options obj d = d := by
  unfold update_with_sniffed_options
  rw [if_pos (by simp [h])]

/-- Witness for C9 on a concrete object and option map. -/
theorem claim_C9_no_auto_options_witness :
    update_with_sniffed_options c2DemoObj
        [("no-auto-options", none), ("for", some "x")] =
      [("no-auto-options", none), ("for", some "x")] :=
  claim_C9_no_auto_options c2DemoObj
    [("no-auto-options", none), ("for", some "x")] (by decide)

/-! ## Signature rendering (`ExtendedCallableMixin`) -/

/-- Directive options read by `_get_signature_prefix` and
`handle_signature`: flag options are `Bool` (key present or not), valued
options are `Option String` (`some v` when the key is present with the
directive-parsed string `v`, which may be empty).  The fields correspond
to the option keys `abstractmethod`, `staticmethod`, `classmethod`,
`async`, `with`, `async-with`, `for`, `async-for`. -/
structure DirOptions where
  abstractmethod : Bool
  staticmethod : Bool
  classmethod : Bool
  asyncFlag : Bool
  withVal : Option String
  asyncWithVal : Option String
  forVal : Option String
  asyncForVal : Option String
deriving DecidableEq, Repr

/-- Python `str.strip()` for the whitespace characters that matter here,
implemented by structural recursion on the character list so that it
evaluates inside the kernel. -/
def pyStrip (s : String) : String :=
  ⟨((s.data.dropWhile Char.isWhitespace).reverse.dropWhile Char.isWhitespace).reverse⟩

/-- Bound name used in a `for`/`async for` clause: the option value, or
the ellipsis placeholder when the value is blank (`not name.strip()`). -/
def forName (v : String) : String :=
  if pyStrip v == "" then "..." else v

/-- The method `ExtendedCallableMixin._get_signature_prefix`, building the
prefix by successive `ret += ...` appends. -/
def get_signature_prefix_str (objtype : String) (o : DirOptions) : String :=
  let ret := ""
  let ret := if o.abstractmethod then ret ++ "abstractmethod " else ret
  let ret := if o.staticmethod || (objtype == "staticmethod") then ret ++ "staticmethod " else ret
  let ret := if o.classmethod || (objtype == "classmethod") then ret ++ "classmethod " else ret
  let ret := if o.withVal.isSome then ret ++ "with " else ret
  let ret := if o.asyncWithVal.isSome then ret ++ "async with " else ret
  let ret := match o.forVal with
    | some v => ret ++ ("for " ++ forName v ++ " in ")
    | none => ret
  let ret := match o.asyncForVal with
    | some v => ret ++ ("async for " ++ forName v ++ " in ")
    | none => ret
  if o.asyncFlag then ret ++ "await " else ret

/-- The suffix annotations appended by
`ExtendedCallableMixin.handle_signature`: one `" as <value>"` node for
each of `with`, `async-with` whose value is non-blank
(`self.options.get(optname, "").strip()` truthy). -/
def suffixAnnotations (o : DirOptions) : List String :=
  (match o.withVal with
   | some v => if pyStrip v == "" then [] else ["\u00A0as " ++ v]
   | none => [])
  ++ (match o.asyncWithVal with
     | some v => if pyStrip v == "" then [] else ["\u00A0as " ++ v]
     | none => [])

/-- Modelled from the spec wording of C3: the fixed order in which the
tags contribute their words to the prefix. -/
def specTagOrder : List String :=
  ["abstractmethod", "staticmethod", "classmethod", "with", "async-with",
   "for", "async-for", "async"]

/-- Modelled from the spec wording of C3: the literal word(s) one present
tag contributes to the prefix. -/
def specContribution (objtype : String) (o : DirOptions) : String → String
  | "abstractmethod" => if o.abstractmethod then "abstractmethod " else ""
  | "staticmethod" =>
      if o.staticmethod || (objtype == "staticmethod") then "staticmethod " else ""
  | "classmethod" =>
      if o.classmethod || (objtype == "classmethod") then "classmethod " else ""
  | "with" => if o.withVal.isSome then "with " else ""
  | "async-with" => if o.asyncWithVal.isSome then "async with " else ""
  | "for" =>
      match o.forVal with
      | some v => "for " ++ forName v ++ " in "
      | none => ""
  | "async-for" =>
      match o.asyncForVal with
      | some v => "async for " ++ forName v ++ " in "
      | none => ""
  | "async" => if o.asyncFlag then "await " else ""
  | _ => ""

set_option maxHeartbeats 1600000 in
theorem get_signature_prefix_join (objtype : String) (o : DirOptions) :
    get_signature_prefix_str objtype o =
      String.join (specTagOrder.map (specContribution objtype o)) := by
  obtain ⟨ab, st, cl, asy, w, aw, f, af⟩ := o
  unfold get_signature_prefix_str specTagOrder
  cases w <;> cases aw <;> cases f <;> cases af <;>
    simp only [List.map, String.join, List.foldl, Option.isSome, specContribution] <;>
    split_ifs <;>
    simp [String.append_empty, String.empty_append, String.append_assoc]

/-- A splitting of the join of eight strings around the sixth element,
matching the position of the `for` clause in `specTagOrder`. -/
theorem join_split_at6 (c1 c2 c3 c4 c5 c6 c7 c8 : String) :
    String.join [c1, c2, c3, c4, c5, c6, c7, c8] =
      (((((c1 ++ c2) ++ c3) ++ c4) ++ c5) ++ c6) ++ (c7 ++ c8) := by
  rw [← String.append_assoc]
  rfl

/-- The directive options `:abstractmethod:`, `:classmethod:`, `:async:`
with no valued options, as in the C3 rendering scenario. -/
def c3Opts : DirOptions :=
  ⟨true, false, true, true, none, none, none, none⟩

/-- C3: for the tag set `abstractmethod`, `classmethod`, `async` with no
bound-name values, the rendered signature prefix is exactly
`"abstractmethod classmethod await "` (trailing space included) and no
suffix annotation is produced; and in general the prefix is the
concatenation, in the fixed order `abstractmethod`, `staticmethod`,
`classmethod`, `with`, `async with`, `for ... in`, `async for ... in`,
`await`, of the literal words contributed by each present tag. -/
theorem claim_C3_render_scenario :
    get_signature_prefix_str "method" c3Opts = "abstractmethod classmethod await " ∧
    suffixAnnotations c3Opts = [] ∧
    ∀ objtype o, get_signature_prefix_str objtype o =
      String.join (specTagOrder.map (specContribution objtype o)) :=
  ⟨by decide, by decide, get_signature_prefix_join⟩

/-- Directive options with a `with` tag present and a blank value. -/
def c7Opts : DirOptions :=
  ⟨false, false, false, false, some "", none, none, none⟩

/-- Directive options with a `for` tag present and a blank value. -/
def c7ForOpts : DirOptions :=
  ⟨false, false, false, false, none, none, some "", none⟩

/-- C7 counterexample: the claim says all four valued tags (`with`,
`async-with`, `for`, `async-for`) render an ellipsis placeholder when the
bound-name value is blank.  For a blank `with` value the code renders the
prefix `"with "` and no suffix annotation at all: no `"..."` appears in
the output (the rendered text contains no `'.'` character). -/
theorem claim_C7_counterexample :
    c7Opts.withVal = some "" ∧
    pyStrip "" = "" ∧
    get_signature_prefix_str "function" c7Opts = "with " ∧
    suffixAnnotations c7Opts = [] ∧
    ¬ '.' ∈ (get_signature_prefix_str "function" c7Opts).data := by
  decide

/-- C7 amended: only the `for` and `async-for` tags substitute the
ellipsis placeholder for a blank bound name (the rendered prefix contains
the literal clause `for ... in ` resp. `async for ... in `), while a
blank `with`/`async-with` value produces no `as`-suffix annotation at
all. -/
theorem claim_C7_ellipsis_amended (v : String) (hv : pyStrip v = "") :
    forName v = "..." ∧
    (∀ objtype o, DirOptions.forVal o = some v →
      ∃ p q, get_signature_prefix_str objtype o =
        (p ++ ("for " ++ "..." ++ " in ")) ++ q) ∧
    (∀ objtype o, DirOptions.asyncForVal o = some v →
      ∃ p q, get_signature_prefix_str objtype o =
        (p ++ ("async for " ++ "..." ++ " in ")) ++ q) ∧
    (∀ o : DirOptions, (o.withVal = some v ∨ o.withVal = none) →
      (o.asyncWithVal = some v ∨ o.asyncWithVal = none) →
      suffixAnnotations o = []) := by
  have hname : forName v = "..." := by simp [forName, hv]
  refine ⟨hname, ?_, ?_, ?_⟩
  · intro objtype o hf
    rw [get_signature_prefix_join objtype o]
    simp only [specTagOrder, List.map]
    rw [join_split_at6]
    refine ⟨(((specContribution objtype o "abstractmethod"
        ++ specContribution objtype o "staticmethod")
        ++ specContribution objtype o "classmethod")
        ++ specContribution objtype o "with")
        ++ specContribution objtype o "async-with",
      specContribution objtype o "async-for" ++ specContribution objtype o "async", ?_⟩
    have : specContribution objtype o "for" = "for " ++ "..." ++ " in " := by
      simp [specContribution, hf, hname]
    rw [this]
  · intro objtype o hf
    rw [get_signature_prefix_join objtype o]
    simp only [specTagOrder, List.map, String.join, List.foldl]
    refine ⟨((((specContribution objtype o "abstractmethod"
        ++ specContribution objtype o "staticmethod")
        ++ specContribution objtype o "classmethod")
        ++ specContribution objtype o "with")
        ++ specContribution objtype o "async-with")
        ++ specContribution objtype o "for",
      specContribution objtype o "async", ?_⟩
    have : specContribution objtype o "async-for" = "async for " ++ "..." ++ " in " := by
      simp [specContribution, hf, hname]
    rw [this]
    simp [String.empty_append]
  · intro o hw haw
    unfold suffixAnnotations
    rcases hw with hw | hw <;> rcases haw with haw | haw <;>
      rw [hw, haw] <;> simp [hv]

/-- Witness for the amended C7 on concrete inputs: a blank `for` value
renders the `for ... in ` clause, and blank `with` values produce no
suffix annotations. -/
theorem claim_C7_ellipsis_amended_witness :
    (∃ p q, get_signature_prefix_str "function" c7ForOpts =
      (p ++ ("for " ++ "..." ++ " in ")) ++ q) ∧
    suffixAnnotations c7Opts = [] :=
  ⟨(claim_C7_ellipsis_amended "" (by decide)).2.1 "function" c7ForOpts (by decide),
   (claim_C7_ellipsis_amended "" (by decide)).2.2.2 c7Opts (Or.inl (by decide))
     (Or.inr (by decide))⟩

/-! ## Rendering-time field filtering (`filter_trio_fields`) -/

/-- Python `str.startswith`, by structural recursion on the character
lists. -/
def strStartsWith (s pre : String) : Bool :=
  pre.data.isPrefixOf s.data

/-- One field of a docutils field list; `name` models
`field[0].astext()`. -/
structure Field where
  name : String
deriving DecidableEq, Repr

/-- A node of the rendered content: a field list or any other node
(untouched by the filter). -/
inductive ContentNode : Type where
  | fieldList (fields : List Field)
  | other
deriving DecidableEq, Repr

/-- The test `field_name == "trio" or field_name.startswith("trio ")`
applied to the stripped field name. -/
def isTrioField (f : Field) : Bool :=
  (pyStrip f.name == "trio") || strStartsWith (pyStrip f.name) "trio "

/-- The inner loop of `filter_trio_fields`: iterate over the fields,
remove the first one whose name matches, then `break`. -/
def removeFirstTrio : List Field → List Field
  | [] => []
  | f :: rest => if isTrioField f then rest else f :: removeFirstTrio rest

/-- The hook `filter_trio_fields(app, domain, objtype, content)` (the
unused `app`/`objtype` arguments are omitted), returning the filtered
content. -/
def filter_trio_fields (domain : String) (content : List ContentNode) :
    List ContentNode :=
  if domain != "py" then content
  else content.map fun n =>
    match n with
    | .fieldList fs => .fieldList (removeFirstTrio fs)
    | .other => .other

theorem removeFirstTrio_no_trio {fs : List Field}
    (h : fs.countP (fun f => isTrioField f) ≤ 1) :
    ∀ f ∈ removeFirstTrio fs, isTrioField f = false := by
  induction fs with
  | nil => intro f hf; exact absurd hf (List.not_mem_nil f)
  | cons g rest ih =>
    intro f hf
    by_cases hg : isTrioField g = true
    · rw [removeFirstTrio, if_pos hg] at hf
      simp only [List.countP_cons, hg, if_pos] at h
      have hz : rest.countP (fun f => isTrioField f) = 0 := by omega
      exact Bool.eq_false_iff.2 (List.countP_eq_zero.1 hz f hf)
    · rw [removeFirstTrio, if_neg hg] at hf
      rcases List.mem_cons.1 hf with rfl | hf'
      · exact Bool.eq_false_iff.2 hg
      · refine ih ?_ f hf'
        simp only [List.countP_cons, Bool.eq_false_iff.2 hg] at h
        simpa using h

/-- The content of a description whose single field list holds two
reserved-prefix fields. -/
def c8Content : List ContentNode :=
  [.fieldList [⟨"trio x"⟩, ⟨"trio y"⟩]]

/-- C8 counterexample: the claim says every field whose name is `trio` or
starts with `trio ` is removed.  The loop in `filter_trio_fields` breaks
after removing the first matching field, so with two `trio` fields in one
field list the second one survives the filter. -/
theorem claim_C8_counterexample :
    filter_trio_fields "py" c8Content = [.fieldList [⟨"trio y"⟩]] ∧
    isTrioField ⟨"trio y"⟩ = true := by
  decide

/-- C8 amended: in the `py` domain the filter removes the *first*
reserved-prefix field of each field list (at most one per list); in
particular, whenever each field list contains at most one such field,
no reserved-prefix field remains in the rendered content. -/
theorem claim_C8_filter_amended (content : List ContentNode)
    (h : ∀ fs, ContentNode.fieldList fs ∈ content →
      fs.countP (fun f => isTrioField f) ≤ 1) :
    ∀ fs, ContentNode.fieldList fs ∈ filter_trio_fields "py" content →
      ∀ f ∈ fs, isTrioField f = false := by
  intro fs hmem f hf
  unfold filter_trio_fields at hmem
  rw [if_neg (by decide)] at hmem
  rcases List.mem_map.1 hmem with ⟨n, hn, hgn⟩
  cases n with
  | fieldList fs0 =>
    simp only [ContentNode.fieldList.injEq] at hgn
    subst hgn
    exact removeFirstTrio_no_trio (h fs0 hn) f hf
  | other => exact absurd hgn (by simp)

/-- Witness for the amended C8: a field list holding one `trio` field and
one ordinary field keeps only non-matching fields after filtering. -/
theorem claim_C8_filter_amended_witness :
    isTrioField ⟨"param"⟩ = false :=
  claim_C8_filter_amended [.fieldList [⟨"trio x"⟩, ⟨"param"⟩], .other]
    (by
      intro fs hfs
      simp only [List.mem_cons, List.not_mem_nil, or_false] at hfs
      rcases hfs with hfs | hfs
      · cases hfs; decide
      · exact absurd hfs (by simp))
    [⟨"param"⟩] (by decide) ⟨"param"⟩ (by decide)

/-! ## The docstring metadata splitter (`separate_metadata`)

The docutils pattern `Body.patterns['field_marker']` compiled into
`FIELD_LIST_ITEM_RE` is

`:(?![: ])([^:\\]|\\.|:(?!([ \x60]|$)))*(?<! ):( +|$)`

(with a backtick instead of `\x60`).  It is implemented below as a direct
recognizer: the body alternation is deterministic per character, so the
greedy star with backtracking is equivalent to choosing the largest
position of the final colon for which the body and the
lookbehind/lookahead conditions hold.
-/

/-- The negative lookahead after a colon inside the field-marker body:
fails on a following space, backtick, or end of line.  `rest` is the part
of the body after the colon and `after` the part of the line after the
body. -/
def lookaheadOk (rest after : List Char) : Bool :=
  match rest with
  | c2 :: _ => !(c2 = ' ' || c2 = '`')
  | [] =>
    match after with
    | c2 :: _ => !(c2 = ' ' || c2 = '`')
    | [] => false

/-- Whether `([^:\\]|\\.|:(?!([ \x60]|$)))*` consumes exactly the body
segment, with `after` the rest of the line (starting at the final
colon). -/
def canBodyList : List Char → List Char → Bool
  | [], _ => true
  | c :: rest, after =>
    if c = '\\' then
      match rest with
      | [] => false
      | c2 :: rest2 => if c2 = '\n' then false else canBodyList rest2 after
    else if c = ':' then
      if lookaheadOk rest after then canBodyList rest after else false
    else canBodyList rest after

/-- Whether the field-marker pattern can match with its final colon at
position `k` of the line: the leading colon, the `(?![: ])` lookahead,
the body over positions `1..k-1`, the `(?<! )` lookbehind, and the
trailing `( +|$)`. -/
def fieldMarkValidAt (cs : List Char) (k : Nat) : Bool :=
  decide (2 ≤ k) && decide (k < cs.length) &&
  (cs.get? 0 == some ':') &&
  (match cs.get? 1 with
   | some c => !(c = ':' || c = ' ')
   | none => false) &&
  (cs.get? k == some ':') &&
  (match cs.get? (k - 1) with
   | some c => !(c = ' ')
   | none => false) &&
  canBodyList ((cs.drop 1).take (k - 1)) (cs.drop k) &&
  (decide (k + 1 = cs.length) || (cs.get? (k + 1) == some ' '))

/-- Position of the final colon chosen by the greedy match, i.e. the
largest valid position. -/
def findFinalColon (cs : List Char) : Option Nat :=
  (List.range cs.length).reverse.find? (fun k => fieldMarkValidAt cs k)

/-- Position `matched.end()`: one past the final colon, plus the greedily
consumed run of spaces. -/
def matchEnd (cs : List Char) (k : Nat) : Nat :=
  if k + 1 = cs.length then k + 1
  else k + 1 + ((cs.drop (k + 1)).takeWhile (fun c => c = ' ')).length

/-- The match `FIELD_LIST_ITEM_RE.match(line)` together with the two uses
the splitter makes of the match object: the field name
`matched.group()[1:].split(":", 1)[0]` and the remainder
`line[matched.end():]`. -/
def fieldMarkerMatch (line : String) : Option (String × String) :=
  let cs := line.data
  match findFinalColon cs with
  | none => none
  | some k =>
    let e := matchEnd cs k
    let fname := ((cs.drop 1).take (e - 1)).takeWhile (fun c => c ≠ ':')
    some (⟨fname⟩, ⟨cs.drop e⟩)

/-- The loop state of `separate_metadata`: the `in_other_element` flag,
the metadata dict, and the kept lines. -/
structure SepState where
  in_other_element : Bool
  metadata : List (String × String)
  lines : List String
deriving DecidableEq, Repr

/-- Python `dict[key] = value`: replace the value in place when the key
exists, otherwise append the binding. -/
def setKey : List (String × String) → String → String → List (String × String)
  | [], k, v => [(k, v)]
  | (k', v') :: rest, k, v =>
    if k' == k then (k', v) :: rest else (k', v') :: setKey rest k v

/-- First-match lookup in the metadata dict. -/
def lookupMeta : List (String × String) → String → Option String
  | [], _ => none
  | (k', v) :: rest, k => if k' == k then some v else lookupMeta rest k

/-- One iteration of the line loop of `separate_metadata`. -/
def sepStep (st : SepState) (line : String) : SepState :=
  if pyStrip line == "" then
    { st with in_other_element := false, lines := st.lines ++ [line] }
  else
    match fieldMarkerMatch line with
    | some (field_name, rest) =>
      if !st.in_other_element then
        if strStartsWith field_name "trio " then
          let name := pyStrip ⟨field_name.data.drop 5⟩
          { st with metadata := setKey st.metadata name (pyStrip rest) }
        else
          { st with lines := st.lines ++ [line] }
      else
        { st with in_other_element := true, lines := st.lines ++ [line] }
    | none =>
      { st with in_other_element := true, lines := st.lines ++ [line] }

/-- The function `separate_metadata`, over the docstring already broken
into lines (the call to the host helper `prepare_docstring`, which splits
the docstring into dedented lines, is abstracted into the input list):
returns the kept lines joined with newlines, and the extracted
metadata. -/
def separate_metadata (ls : List String) : String × List (String × String) :=
  let st := ls.foldl sepStep ⟨false, [], []⟩
  (String.intercalate "\n" st.lines, st.metadata)

/-- Whether a line would be extracted as metadata when the
`in_other_element` flag is clear: it matches the field marker and its
field name carries the reserved prefix. -/
def isTrioFieldLine (line : String) : Bool :=
  match fieldMarkerMatch line with
  | some (field_name, _) => strStartsWith field_name "trio "
  | none => false

/-- The name/value pair a line would contribute to the metadata dict:
the field name with the five characters of the reserved prefix removed
and stripped, and the stripped remainder of the line. -/
def extractTrio (line : String) : Option (String × String) :=
  match fieldMarkerMatch line with
  | some (field_name, rest) =>
    if strStartsWith field_name "trio " then
      some (pyStrip ⟨field_name.data.drop 5⟩, pyStrip rest)
    else none
  | none => none

theorem sepStep_no_trio (st : SepState) {l : String}
    (hl : isTrioFieldLine l = false) :
    (sepStep st l).lines = st.lines ++ [l] ∧
      (sepStep st l).metadata = st.metadata := by
  by_cases hb : (pyStrip l == "") = true
  · simp [sepStep, hb]
  · unfold isTrioFieldLine at hl
    cases hm : fieldMarkerMatch l with
    | none => simp [sepStep, hb, hm]
    | some p =>
      obtain ⟨fn, rest⟩ := p
      have hl' : strStartsWith fn "trio " = false := by
        rw [hm] at hl
        simpa using hl
      cases hio : st.in_other_element <;> simp [sepStep, hb, hm, hio, hl']

theorem sepFold_no_trio (ls : List String) (st : SepState)
    (h : ∀ l ∈ ls, isTrioFieldLine l = false) :
    (ls.foldl sepStep st).lines = st.lines ++ ls ∧
      (ls.foldl sepStep st).metadata = st.metadata := by
  induction ls generalizing st with
  | nil => simp
  | cons l rest ih =>
    obtain ⟨s1, s2⟩ := sepStep_no_trio st (h l (List.mem_cons_self l rest))
    obtain ⟨i1, i2⟩ := ih (sepStep st l) (fun l' hl' => h l' (List.mem_cons_of_mem l hl'))
    constructor
    · rw [List.foldl_cons, i1, s1]
      simp
    · rw [List.foldl_cons, i2, s2]

/-- C5: for a docstring (given as its prepared lines) containing no
field-marker line whose field name starts with the reserved prefix
`"trio "`, `separate_metadata` keeps every line unchanged — the returned
text is the input lines joined by newlines — and returns an empty
metadata mapping. -/
theorem claim_C5_no_trio_unchanged (ls : List String)
    (h : ∀ l ∈ ls, isTrioFieldLine l = false) :
    separate_metadata ls = (String.intercalate "\n" ls, []) := by
  obtain ⟨h1, h2⟩ := sepFold_no_trio ls ⟨false, [], []⟩ h
  have hdef : separate_metadata ls =
      (String.intercalate "\n" (ls.foldl sepStep ⟨false, [], []⟩).lines,
        (ls.foldl sepStep ⟨false, [], []⟩).metadata) := rfl
  rw [hdef, h1, h2]
  simp

/-- Witness for C5 on a concrete reserved-prefix-free docstring. -/
theorem claim_C5_no_trio_unchanged_witness :
    separate_metadata ["Example docstring.", "", ":param x: 1"] =
      (String.intercalate "\n" ["Example docstring.", "", ":param x: 1"], []) :=
  claim_C5_no_trio_unchanged ["Example docstring.", "", ":param x: 1"] (by decide)

/-- C6 counterexample: the claim says every non-blank line that is kept
(not extracted) sets the `in_other_element` flag.  A line that matches
the field marker with a non-reserved name while the flag is clear —
here `":param x: foo"` — is kept verbatim but leaves the flag clear, and
consequently a reserved-prefix field on the very next line is still
extracted (while the claim would have it kept verbatim). -/
theorem claim_C6_counterexample :
    pyStrip ":param x: foo" ≠ "" ∧
    sepStep ⟨false, [], []⟩ ":param x: foo" = ⟨false, [], [":param x: foo"]⟩ ∧
    separate_metadata [":param x: foo", ":trio async: v"] =
      (":param x: foo", [("async", "v")]) := by
  decide

/-- C6 amended: a non-blank line sets the flag and is kept verbatim when
it does not match the field-marker pattern, or when the flag was already
set; but a line matching the pattern with a non-reserved field name
while the flag is clear is kept verbatim with the flag left clear.  The
flag is cleared exactly by blank lines: a blank line always clears it,
and a non-blank line never clears it. -/
theorem claim_C6_flag_amended (st : SepState) (line : String)
    (hnb : pyStrip line ≠ "") :
    (fieldMarkerMatch line = none →
      sepStep st line =
        { st with in_other_element := true, lines := st.lines ++ [line] }) ∧
    (st.in_other_element = true →
      sepStep st line =
        { st with in_other_element := true, lines := st.lines ++ [line] }) ∧
    (∀ fn rest, fieldMarkerMatch line = some (fn, rest) →
      st.in_other_element = false → strStartsWith fn "trio " = false →
      sepStep st line = { st with lines := st.lines ++ [line] }) ∧
    (∀ st2 : SepState, ∀ l2 : String, pyStrip l2 = "" →
      (sepStep st2 l2).in_other_element = false) := by
  have hb : ¬ ((pyStrip line == "") = true) := by simp [hnb]
  refine ⟨?_, ?_, ?_, ?_⟩
  · intro hm
    simp [sepStep, hb, hm]
  · intro hio
    cases hm : fieldMarkerMatch line with
    | none => simp [sepStep, hb, hm, hio]
    | some p =>
      obtain ⟨fn, rest⟩ := p
      simp [sepStep, hb, hm, hio]
  · intro fn rest hm hio ht
    simp [sepStep, hb, hm, hio, ht]
  · intro st2 l2 h2
    simp [sepStep, h2]

/-- Witness for the amended C6: a plain-prose line with the flag already
set is kept and leaves the flag set. -/
theorem claim_C6_flag_amended_witness :
    sepStep ⟨true, [], []⟩ "plain text" = ⟨true, [], ["plain text"]⟩ := by
  have h := (claim_C6_flag_amended ⟨true, [], []⟩ "plain text" (by decide)).2.1 rfl
  simpa using h

theorem lookupMeta_setKey (m : List (String × String)) (k v : String) :
    lookupMeta (setKey m k v) k = some v := by
  induction m with
  | nil => simp [setKey, lookupMeta]
  | cons p rest ih =>
    obtain ⟨k', v'⟩ := p
    by_cases hk : (k' == k) = true
    · simp [setKey, lookupMeta, hk]
    · simp [setKey, lookupMeta, hk, ih]

theorem sepStep_extract {st : SepState} {l n v : String}
    (hio : st.in_other_element = false) (hb : pyStrip l ≠ "")
    (he : extractTrio l = some (n, v)) :
    sepStep st l = { st with metadata := setKey st.metadata n v } := by
  unfold extractTrio at he
  cases hm : fieldMarkerMatch l with
  | none => rw [hm] at he; exact absurd he (by simp)
  | some p =>
    obtain ⟨fn, rest⟩ := p
    rw [hm] at he
    dsimp only at he
    by_cases ht : strStartsWith fn "trio " = true
    · rw [if_pos ht] at he
      simp only [Option.some.injEq, Prod.mk.injEq] at he
      obtain ⟨hn, hv⟩ := he
      simp [sepStep, hb, hm, hio, ht, hn, hv]
    · rw [if_neg ht] at he
      exact absurd he (by simp)

/-- C10: when two lines both extract a reserved-prefix metadata field
with the same tag name, the mapping returned by `separate_metadata`
holds the value of the second (later) field — later occurrences
overwrite earlier ones. -/
theorem claim_C10_last_wins (l1 l2 n v1 v2 : String)
    (h1 : extractTrio l1 = some (n, v1)) (h2 : extractTrio l2 = some (n, v2))
    (hb1 : pyStrip l1 ≠ "") (hb2 : pyStrip l2 ≠ "") :
    lookupMeta (separate_metadata [l1, l2]).2 n = some v2 := by
  unfold separate_metadata
  simp only [List.foldl_cons, List.foldl_nil]
  rw [sepStep_extract rfl hb1 h1, sepStep_extract rfl hb2 h2]
  exact lookupMeta_setKey _ n v2

/-- Witness for C10: two `:trio async:` fields; the mapping holds the
later value. -/
theorem claim_C10_last_wins_witness :
    lookupMeta (separate_metadata [":trio async: foo", ":trio async: bar"]).2
      "async" = some "bar" :=
  claim_C10_last_wins ":trio async: foo" ":trio async: bar" "async" "foo" "bar"
    (by decide) (by decide) (by decide) (by decide)

end SphinxcontribTrio
